import Mathlib

/-!
Verification of the notebook TypeScript tooling scripts
(`scripts/format_ts_cells.py`, `scripts/lint_ts_cells.py`,
`scripts/compile_ts_cells.py`, `scripts/utils.py`).

Strings are modelled as `List Char`.  Python's `str.splitlines`,
`str.strip`, `str.split(sep)`, `sep.join(...)` and the two diagnostic
regexes are embedded as executable Lean functions; the cell-offset
arithmetic, the per-line diagnostic handlers, the formatter driver and
the process runner are translated from the Python source.
-/

/-- Python whitespace class used by `str.strip()` and the regex class
in the ASCII range (space, tab, newline, carriage return, vertical tab,
form feed). -/
def isPySpace (c : Char) : Bool :=
  c = ' ' || c = '\t' || c = '\n' || c = '\r' || c = '\x0b' || c = '\x0c'

/-- Line terminators recognised by Python's `str.splitlines`. -/
def isLineBreak (c : Char) : Bool :=
  c = '\n' || c = '\r' || c = '\x0b' || c = '\x0c' ||
  c = '\x1c' || c = '\x1d' || c = '\x1e' || c = '\x85' ||
  c = ' ' || c = ' '

/-- Worker for Python `str.splitlines()` (terminators removed); `acc`
holds the reversed chars of the current unfinished line.  `"\r\n"` is a
single terminator. -/
def splitlinesAux (acc : List Char) : List Char → List (List Char)
  | [] => if acc = [] then [] else [acc.reverse]
  | '\r' :: '\n' :: rest => acc.reverse :: splitlinesAux [] rest
  | c :: rest =>
    if isLineBreak c then acc.reverse :: splitlinesAux [] rest
    else splitlinesAux (c :: acc) rest

/-- Python `s.splitlines()`. -/
def pySplitlines (s : List Char) : List (List Char) :=
  splitlinesAux [] s

/-- Worker for Python `str.splitlines(keepends=True)`. -/
def splitlinesKeepAux (acc : List Char) : List Char → List (List Char)
  | [] => if acc = [] then [] else [acc.reverse]
  | '\r' :: '\n' :: rest => (acc.reverse ++ ['\r', '\n']) :: splitlinesKeepAux [] rest
  | c :: rest =>
    if isLineBreak c then (acc.reverse ++ [c]) :: splitlinesKeepAux [] rest
    else splitlinesKeepAux (c :: acc) rest

/-- Python `s.splitlines(keepends=True)`. -/
def pySplitlinesKeep (s : List Char) : List (List Char) :=
  splitlinesKeepAux [] s

/-- `len(code.splitlines())`, the line count the scripts use for each cell. -/
def countLines (s : List Char) : ℕ :=
  (pySplitlines s).length

/-- Number of line terminators of `s` (with `"\r\n"` counted once).
Auxiliary measure used to bound `countLines` over concatenations. -/
def termCount : List Char → ℕ
  | [] => 0
  | '\r' :: '\n' :: rest => 1 + termCount rest
  | c :: rest => (if isLineBreak c then 1 else 0) + termCount rest

/-- Python `s.strip()`. -/
def pyStrip (s : List Char) : List Char :=
  ((s.dropWhile isPySpace).reverse.dropWhile isPySpace).reverse

/-- Value of `int(...)` on a string of decimal digits. -/
def digitsToNat (ds : List Char) : ℕ :=
  ds.foldl (fun n c => 10 * n + (c.toNat - '0'.toNat)) 0

/-- The marker line inside the cell separator: `// --- CELL SPLIT ---`. -/
def MARKER : List Char :=
  ['/', '/', ' ', '-', '-', '-', ' ', 'C', 'E', 'L', 'L', ' ',
   'S', 'P', 'L', 'I', 'T', ' ', '-', '-', '-']

/-- The cell separator `"\n\n// --- CELL SPLIT ---\n\n"` of
`lint_ts_cells.py` line 36 and `compile_ts_cells.py` line 32. -/
def SEP : List Char :=
  '\n' :: '\n' :: (MARKER ++ ['\n', '\n'])

/-- `LintResult` of `lint_ts_cells.py` lines 13-19. -/
structure LintResult where
  line : ℕ
  column : ℕ
  message : List Char
  rule_id : List Char
deriving DecidableEq

/-- Matcher for the regex `^\s*(\d+):(\d+)\s+error\s+(.*)` of
`lint_ts_cells.py` line 24: skip leading whitespace, one-or-more digits,
a colon, one-or-more digits, one-or-more whitespace, the literal
`error`, one-or-more whitespace, then the rest of the line (`.` does
not cross a newline).  Returns `(row, col, message)` on a match. -/
def lintMatch (lineText : List Char) : Option (ℕ × ℕ × List Char) :=
  let s := lineText.dropWhile isPySpace
  let d1 := s.takeWhile Char.isDigit
  if d1 = [] then none else
  match s.dropWhile Char.isDigit with
  | ':' :: t2 =>
    let d2 := t2.takeWhile Char.isDigit
    if d2 = [] then none else
    let t3 := t2.dropWhile Char.isDigit
    if t3.takeWhile isPySpace = [] then none else
    match t3.dropWhile isPySpace with
    | 'e' :: 'r' :: 'r' :: 'o' :: 'r' :: t4 =>
      if t4.takeWhile isPySpace = [] then none else
      some (digitsToNat d1, digitsToNat d2,
            (t4.dropWhile isPySpace).takeWhile (fun c => c ≠ '\n'))
    | _ => none
  | _ => none

/-- `parse_lint_output` of `lint_ts_cells.py` lines 22-28. -/
def parse_lint_output (lineText : List Char) : LintResult :=
  match lintMatch lineText with
  | some (row, col, message) => ⟨row, col, message, []⟩
  | none => ⟨0, 0, [], []⟩

/-- `CompileResult` of `compile_ts_cells.py` lines 13-17. -/
structure CompileResult where
  line : ℕ
  column : ℕ
  message : List Char
  rule_id : List Char
deriving DecidableEq

/-- The lazy group `(.*?):\s+` of the compile regex: the shortest
newline-free run up to a colon that is followed by at least one
whitespace character.  Returns the run and the text after the colon. -/
def lazyRuleSplit : List Char → Option (List Char × List Char)
  | [] => none
  | c :: w =>
    if c = '\n' then none
    else if c = ':' ∧ w.takeWhile isPySpace ≠ [] then some ([], w)
    else (lazyRuleSplit w).map (fun pr => (c :: pr.1, pr.2))

/-- The part `\((\d+),(\d+)\):\s+error\s+(.*?):\s+(.*)` of the compile
regex, matched at a fixed start position. -/
def parseParen (t : List Char) : Option (ℕ × ℕ × List Char × List Char) :=
  match t with
  | '(' :: t1 =>
    let d1 := t1.takeWhile Char.isDigit
    if d1 = [] then none else
    match t1.dropWhile Char.isDigit with
    | ',' :: t2 =>
      let d2 := t2.takeWhile Char.isDigit
      if d2 = [] then none else
      match t2.dropWhile Char.isDigit with
      | ')' :: ':' :: t3 =>
        if t3.takeWhile isPySpace = [] then none else
        match t3.dropWhile isPySpace with
        | 'e' :: 'r' :: 'r' :: 'o' :: 'r' :: t4 =>
          if t4.takeWhile isPySpace = [] then none else
          match lazyRuleSplit (t4.dropWhile isPySpace) with
          | some (rule, t5) =>
            some (digitsToNat d1, digitsToNat d2, rule,
                  (t5.dropWhile isPySpace).takeWhile (fun c => c ≠ '\n'))
          | none => none
        | _ => none
      | _ => none
    | _ => none
  | _ => none

/-- Greedy backtracking of `(\S+)` before the parenthesis: try the
longest non-whitespace run first, shrinking one character at a time
(the run must keep at least one character). -/
def compileTry (s : List Char) : ℕ → Option (ℕ × ℕ × List Char × List Char)
  | 0 => none
  | j + 1 =>
    match parseParen (s.drop (j + 1)) with
    | some r => some r
    | none => compileTry s j

/-- Matcher for the regex `^\s*(\S+)\((\d+),(\d+)\):\s+error\s+(.*?):\s+(.*)`
of `compile_ts_cells.py` line 21. -/
def compileMatch (lineText : List Char) : Option (ℕ × ℕ × List Char × List Char) :=
  let s := lineText.dropWhile isPySpace
  compileTry s (s.takeWhile (fun c => ¬ isPySpace c)).length

/-- `parse_lint_output` of `compile_ts_cells.py` lines 20-25 (the
compile script reuses the name; renamed here to avoid the clash). -/
def parse_compile_output (lineText : List Char) : CompileResult :=
  match compileMatch lineText with
  | some (row, col, rule, message) => ⟨row, col, message, rule⟩
  | none => ⟨0, 0, [], []⟩

/-- Loop body of `find_cell_from_global_line` (`lint_ts_cells.py`
lines 51-58 and, identically, `compile_ts_cells.py` lines 36-42):
`i` is the running index, `lc` the accumulated `line_count`. -/
def findCellAux : List (List Char) → ℕ → ℕ → ℤ → ℤ × ℤ
  | [], _, _, _ => (-1, -1)
  | code :: rest, i, lc, globalLine =>
    if globalLine < ((lc + countLines code + 4 : ℕ) : ℤ) then
      ((i : ℤ), ((lc + countLines code + 4 : ℕ) : ℤ) - (countLines code : ℤ) - 4)
    else findCellAux rest (i + 1) (lc + countLines code + 4) globalLine

/-- `find_cell_from_global_line` of `lint_ts_cells.py` lines 51-58 /
`compile_ts_cells.py` lines 36-42. -/
def find_cell_from_global_line (codes : List (List Char)) (globalLine : ℤ) : ℤ × ℤ :=
  findCellAux codes 0 0 globalLine

/-- Offset-table entry for cell `k`: the sum of `lines(cᵢ) + 4` over all
earlier cells. -/
def cellStart (codes : List (List Char)) (k : ℕ) : ℕ :=
  ((codes.take k).map (fun c => countLines c + 4)).sum

/-- Total span that `find_cell_from_global_line` assigns to all cells. -/
def spanTotal (codes : List (List Char)) : ℕ :=
  (codes.map (fun c => countLines c + 4)).sum

/-- Outcome of one iteration of the output loop of `lint_cells`
(`lint_ts_cells.py` lines 63-74). -/
inductive LintLineOutcome where
  | diagnostic (cell row : ℤ) (col : ℕ) (message context : List Char)
  | passthrough (text : List Char)
  | indexError
deriving DecidableEq

/-- The diagnostic branch of the loop (`lint_ts_cells.py` lines 66-72):
remap the global line, then print the attribution and the offending
line `code_lines[parsed_line.line - 1]`; an out-of-range index is an
uncaught `IndexError`. -/
def reportDiagnostic (codes : List (List Char)) (parsed : LintResult) : LintLineOutcome :=
  let fc := find_cell_from_global_line codes (parsed.line : ℤ)
  match (pySplitlines (List.intercalate SEP codes))[parsed.line - 1]? with
  | some ctx =>
    LintLineOutcome.diagnostic (fc.1 + 1) ((parsed.line : ℤ) - fc.2) parsed.column
      parsed.message ctx
  | none => LintLineOutcome.indexError

/-- One iteration of the output loop of `lint_cells`
(`lint_ts_cells.py` lines 63-74): parsed diagnostics are remapped,
anything else is printed as `line.strip()`. -/
def handleLintLine (codes : List (List Char)) (lineText : List Char) : LintLineOutcome :=
  let parsed := parse_lint_output lineText
  if parsed.line ≠ 0 ∧ parsed.column ≠ 0 then reportDiagnostic codes parsed
  else LintLineOutcome.passthrough (pyStrip lineText)

/-- Outcome of one iteration of the output loop of `compile_cells`
(`compile_ts_cells.py` lines 64-74). -/
inductive CompileLineOutcome where
  | diagnostic (cell row : ℤ) (col : ℕ) (message context : List Char)
  | dropped
  | indexError
deriving DecidableEq

/-- The diagnostic branch of `compile_cells` (`compile_ts_cells.py`
lines 66-74). -/
def reportCompileDiagnostic (codes : List (List Char)) (parsed : CompileResult) :
    CompileLineOutcome :=
  let fc := find_cell_from_global_line codes (parsed.line : ℤ)
  match (pySplitlines (List.intercalate SEP codes))[parsed.line - 1]? with
  | some ctx =>
    CompileLineOutcome.diagnostic (fc.1 + 1) ((parsed.line : ℤ) - fc.2) parsed.column
      parsed.message ctx
  | none => CompileLineOutcome.indexError

/-- One iteration of the output loop of `compile_cells`
(`compile_ts_cells.py` lines 64-74): the loop has no `else` branch, so
a line that does not parse as a diagnostic produces no output. -/
def handleCompileLine (codes : List (List Char)) (lineText : List Char) : CompileLineOutcome :=
  let parsed := parse_compile_output (pyStrip lineText)
  if parsed.line ≠ 0 ∧ parsed.column ≠ 0 then reportCompileDiagnostic codes parsed
  else CompileLineOutcome.dropped

/-- Decomposition of a character stream into the chunks returned by
repeated `readline()` calls: everything up to and including each
newline, with a final unterminated chunk at end of stream; `readline`
returns the empty string only at end of stream. -/
def readLinesAux (acc : List Char) : List Char → List (List Char)
  | [] => if acc = [] then [] else [acc.reverse]
  | c :: rest =>
    if c = '\n' then (acc.reverse ++ ['\n']) :: readLinesAux [] rest
    else readLinesAux (c :: acc) rest

/-- `execute` of `utils.py` lines 5-14, with the child process modelled
by its stdout character stream and its exit code: the generator yields
the stream's lines, then `CalledProcessError(return_code)` is raised
exactly when the exit code is non-zero (`if return_code:`). -/
def execute (stream : List Char) (returnCode : ℤ) : List (List Char) × Option ℤ :=
  (readLinesAux [] stream, if returnCode = 0 then none else some returnCode)

/-- The text `f"[{line_num + 1}] {sign} {line}"` appended by
`diff_strings`. -/
def formatDiffLine (lineNum : ℕ) (sign : Char) (lineText : List Char) : List Char :=
  '[' :: (Nat.toDigits 10 (lineNum + 1)) ++ [']', ' ', sign, ' '] ++ lineText

/-- `diff_strings` of `utils.py` lines 17-28. -/
def diff_strings (a b : List Char) : List Char :=
  let aLines := pySplitlinesKeep a
  let bLines := pySplitlinesKeep b
  let removed := (aLines.enum.filter (fun p => ¬ bLines.contains p.2)).map
    (fun p => formatDiffLine p.1 '-' p.2)
  let added := (bLines.enum.filter (fun p => ¬ aLines.contains p.2)).map
    (fun p => formatDiffLine p.1 '+' p.2)
  pyStrip ((removed ++ [['\n']] ++ added).flatten)

/-- `format_code` of `format_ts_cells.py` lines 10-29, with the one
prettier child process per cell modelled by a parallel list of
`(returncode, stdout)` results: a non-zero exit keeps the cell's
original text (`formatted_code.append(code_cells[cell_idx])`, and the
dict lookup at the cell's own key returns its original code). -/
def format_code (cells : List (ℕ × List Char)) (results : List (ℤ × List Char)) :
    List (List Char) :=
  (cells.zip results).map (fun pr => if pr.2.1 ≠ 0 then pr.1.2 else pr.2.2)

/-- Cell loop and persistence step of `process_notebook` of
`format_ts_cells.py` lines 53-78, given the original code-cell texts
paired against the formatter output.  Returns `(changed, wrote)`:
`changed` is the function's return value, `wrote` whether the notebook
file is rewritten.  In check mode the `continue` is taken before
`changed = True`. -/
def format_process_notebook (cells fmts : List (List Char)) (check : Bool) :
    Bool × Bool :=
  let changed := (cells.zip fmts).foldl
    (fun changed pr =>
      if pr.2 ≠ pr.1 then (if check then changed else true) else changed)
    false
  (changed, if check then false else changed)

/-- Classification of a CLI path argument, with the notebook verdicts
it leads to: `main` fail-fasts on a missing path; `process_path` walks
a directory, processes a `.ipynb` file, and reports anything else as
`Invalid path` while returning `False`. -/
inductive PathSpec where
  | missing
  | dir (verdicts : List Bool)
  | notebookFile (verdict : Bool)
  | other
deriving DecidableEq

/-- `process_path` of `format_ts_cells.py` lines 81-93 /
`lint_ts_cells.py` lines 139-151 / `compile_ts_cells.py` lines 111-123
(the three are identical), over the per-notebook verdicts. -/
def process_path : PathSpec → Bool
  | PathSpec.missing => false
  | PathSpec.dir verdicts => verdicts.any id
  | PathSpec.notebookFile verdict => verdict
  | PathSpec.other => false

/-- Whether a path argument fails the `path.exists()` check of `main`. -/
def isMissing : PathSpec → Bool
  | PathSpec.missing => true
  | _ => false

/-- Exit status of `main` (`format_ts_cells.py` lines 115-126,
identically in the other two scripts): `sys.exit(1)` on the first
missing path, else 1 when any processed path reported a change,
else 0. -/
def main_exit (paths : List PathSpec) : ℕ :=
  if paths.any isMissing then 1
  else if (paths.map process_path).any id then 1 else 0

/-- Cell loop of `process_notebook` of `lint_ts_cells.py` lines 112-124
over `(original, fixed)` cell pairs: a cell marks the notebook changed
when its fixed text differs or when ESLint exited non-zero. -/
def lint_process_notebook (pairs : List (List Char × List Char)) (rc : ℤ) : Bool :=
  pairs.foldl
    (fun changed pr => if pr.2 ≠ pr.1 ∨ rc ≠ 0 then true else changed)
    false

/-- Index of the leftmost occurrence of `pat` in a list, as found by
Python's `str.find` during `str.split`. -/
def firstOcc (pat : List Char) : List Char → Option ℕ
  | [] => if pat <+: ([] : List Char) then some 0 else none
  | c :: rest =>
    if pat <+: (c :: rest) then some 0
    else (firstOcc pat rest).map (fun p => p + 1)

/-- Fuelled worker for Python `s.split(sep)` with a non-empty
separator: cut at the leftmost occurrence and continue to the right of
it.  The fuel in `pySplit` always suffices. -/
def splitGo (pat : List Char) : ℕ → List Char → List (List Char)
  | 0, s => [s]
  | fuel + 1, s =>
    match firstOcc pat s with
    | none => [s]
    | some p => s.take p :: splitGo pat fuel (s.drop (p + pat.length))

/-- Python `s.split(pat)` for non-empty `pat`
(`fixed_code.split(separator)` in `lint_ts_cells.py` line 82). -/
def pySplit (pat s : List Char) : List (List Char) :=
  splitGo pat (s.length + 1) s

/-! ### Helper lemmas -/

theorem termCount_crlf (rest : List Char) :
    termCount ('\r' :: '\n' :: rest) = 1 + termCount rest := by
  simp [termCount]

theorem termCount_cons (c : Char) (rest : List Char)
    (h : ∀ t, c = '\r' → rest = '\n' :: t → False) :
    termCount (c :: rest) = (if isLineBreak c then 1 else 0) + termCount rest := by
  rcases rest with _ | ⟨c2, rest2⟩
  · simp [termCount]
  · by_cases hc : c = '\r'
    · by_cases hc2 : c2 = '\n'
      · exact (h rest2 hc (by rw [hc2])).elim
      · subst hc
        simp [termCount, hc2]
    · simp [termCount, hc]

theorem termCount_append_le (a b : List Char) :
    termCount (a ++ b) ≤ termCount a + termCount b := by
  induction a using termCount.induct with
  | case1 => simp [termCount]
  | case2 rest ih =>
    rw [List.cons_append, List.cons_append, termCount_crlf, termCount_crlf]
    omega
  | case3 c rest h ih =>
    rw [List.cons_append]
    by_cases hc : c = '\r'
    · rcases rest with _ | ⟨c2, rest2⟩
      · rcases b with _ | ⟨b1, b2⟩
        · simp
        · by_cases hb1 : b1 = '\n'
          · subst hc; subst hb1
            rw [List.nil_append, termCount_crlf]
            rw [termCount_cons '\r' [] h]
            rw [termCount_cons '\n' b2 (fun t h1 _ => by exact absurd h1 (by decide))]
            have h1 : isLineBreak '\r' = true := rfl
            have h2 : isLineBreak '\n' = true := rfl
            rw [h1, h2]
            simp [termCount]
          · rw [List.nil_append,
              termCount_cons c (b1 :: b2) (fun t _ h2 => hb1 (List.cons.inj h2).1),
              termCount_cons c [] h]
            simp [termCount]
      · have hc2 : c2 ≠ '\n' := fun e => h rest2 hc (by rw [e])
        rw [termCount_cons c ((c2 :: rest2) ++ b)
              (fun t _ h2 => by rw [List.cons_append] at h2; exact hc2 (List.cons.inj h2).1),
            termCount_cons c (c2 :: rest2) h]
        omega
    · rw [termCount_cons c (rest ++ b) (fun t h1 _ => hc h1),
        termCount_cons c rest h]
      omega

set_option maxHeartbeats 8000000 in
theorem splitlinesAux_cons (acc : List Char) (c : Char) (rest : List Char)
    (h : ∀ t, c = '\r' → rest = '\n' :: t → False) :
    splitlinesAux acc (c :: rest) =
      if isLineBreak c then acc.reverse :: splitlinesAux [] rest
      else splitlinesAux (c :: acc) rest := by
  rcases rest with _ | ⟨c2, rest2⟩
  · simp [splitlinesAux]
  · by_cases hc : c = '\r'
    · by_cases hc2 : c2 = '\n'
      · exact (h rest2 hc (by rw [hc2])).elim
      · subst hc
        simp [splitlinesAux, hc2]
    · simp [splitlinesAux, hc]

theorem splitlinesAux_length_le (acc : List Char) (s : List Char) :
    (splitlinesAux acc s).length ≤ termCount s + 1 := by
  induction acc, s using splitlinesAux.induct with
  | case1 => simp [splitlinesAux, termCount]
  | case2 acc h => simp [splitlinesAux, h, termCount]
  | case3 acc rest ih =>
    rw [termCount_crlf]
    simp only [splitlinesAux, List.length_cons]
    omega
  | case4 acc c rest h hbr ih =>
    rw [termCount_cons c rest h, splitlinesAux_cons acc c rest h, if_pos hbr, if_pos hbr]
    simp only [List.length_cons]
    omega
  | case5 acc c rest h hbr ih =>
    rw [termCount_cons c rest h, splitlinesAux_cons acc c rest h, if_neg hbr, if_neg hbr]
    omega

theorem termCount_le_splitlinesAux (acc : List Char) (s : List Char) :
    termCount s ≤ (splitlinesAux acc s).length := by
  induction acc, s using splitlinesAux.induct with
  | case1 => simp [splitlinesAux, termCount]
  | case2 acc h => simp [splitlinesAux, h, termCount]
  | case3 acc rest ih =>
    rw [termCount_crlf]
    simp only [splitlinesAux, List.length_cons]
    omega
  | case4 acc c rest h hbr ih =>
    rw [termCount_cons c rest h, splitlinesAux_cons acc c rest h, if_pos hbr, if_pos hbr]
    simp only [List.length_cons]
    omega
  | case5 acc c rest h hbr ih =>
    rw [termCount_cons c rest h, splitlinesAux_cons acc c rest h, if_neg hbr, if_neg hbr]
    omega

theorem intercalate_cons_cons (sep a b : List Char) (l : List (List Char)) :
    List.intercalate sep (a :: b :: l) = a ++ (sep ++ List.intercalate sep (b :: l)) := by
  simp [List.intercalate, List.intersperse_cons_cons]

theorem intercalate_singleton (sep a : List Char) :
    List.intercalate sep [a] = a := by
  simp [List.intercalate]

theorem termCount_le_countLines (s : List Char) : termCount s ≤ countLines s :=
  termCount_le_splitlinesAux [] s

theorem termCount_SEP : termCount SEP = 4 := by decide

theorem termCount_intercalate_le :
    ∀ (codes : List (List Char)), codes ≠ [] →
      termCount (List.intercalate SEP codes) ≤
        (codes.map countLines).sum + 4 * (codes.length - 1) := by
  intro codes
  induction codes with
  | nil => intro h; exact (h rfl).elim
  | cons a rest ih =>
    intro _
    rcases rest with _ | ⟨b, l⟩
    · rw [intercalate_singleton]
      simpa using termCount_le_countLines a
    · rw [intercalate_cons_cons]
      have h1 := termCount_append_le a (SEP ++ List.intercalate SEP (b :: l))
      have h2 := termCount_append_le SEP (List.intercalate SEP (b :: l))
      have h3 := ih (by simp)
      have h4 := termCount_le_countLines a
      rw [termCount_SEP] at h2
      simp only [List.map_cons, List.sum_cons, List.length_cons] at *
      omega

theorem spanTotal_eq (codes : List (List Char)) :
    spanTotal codes = (codes.map countLines).sum + 4 * codes.length := by
  induction codes with
  | nil => simp [spanTotal]
  | cons c l ih =>
    simp only [spanTotal, List.map_cons, List.sum_cons, List.length_cons] at *
    omega

theorem pySplitlines_intercalate_lt_spanTotal (codes : List (List Char)) (h : codes ≠ []) :
    (pySplitlines (List.intercalate SEP codes)).length + 3 ≤ spanTotal codes := by
  have h1 := splitlinesAux_length_le [] (List.intercalate SEP codes)
  have h2 := termCount_intercalate_le codes h
  have h3 := spanTotal_eq codes
  have h4 : 1 ≤ codes.length := by
    rcases codes with _ | _
    · exact (h rfl).elim
    · simp
  simp only [pySplitlines]
  omega

theorem findCellAux_sentinel :
    ∀ (codes : List (List Char)) (i lc : ℕ) (gl : ℤ),
      (lc : ℤ) + ((codes.map (fun c => countLines c + 4)).sum : ℤ) ≤ gl →
      findCellAux codes i lc gl = (-1, -1) := by
  intro codes
  induction codes with
  | nil => intro i lc gl h; rfl
  | cons c rest ih =>
    intro i lc gl h
    simp only [List.map_cons, List.sum_cons] at h
    simp only [findCellAux]
    rw [if_neg (by omega)]
    apply ih
    omega

theorem cellStart_succ (c : List Char) (rest : List (List Char)) (k : ℕ) :
    cellStart (c :: rest) (k + 1) = countLines c + 4 + cellStart rest k := by
  simp [cellStart, List.take_succ_cons]

theorem findCellAux_start :
    ∀ (codes : List (List Char)) (k : ℕ), k < codes.length →
      ∀ (i lc : ℕ),
        findCellAux codes i lc ((lc + cellStart codes k + 1 : ℕ) : ℤ) =
          (((i + k : ℕ) : ℤ), ((lc + cellStart codes k : ℕ) : ℤ)) := by
  intro codes
  induction codes with
  | nil => intro k hk; simp at hk
  | cons c rest ih =>
    intro k hk i lc
    cases k with
    | zero =>
      simp only [cellStart, List.take_zero, List.map_nil, List.sum_nil, Nat.add_zero]
      simp only [findCellAux]
      rw [if_pos (by omega)]
      simp only [Prod.mk.injEq]
      exact ⟨trivial, by omega⟩
    | succ k2 =>
      have hk2 : k2 < rest.length := by simpa using hk
      rw [cellStart_succ]
      simp only [findCellAux]
      rw [if_neg (by omega)]
      have heq1 : lc + (countLines c + 4 + cellStart rest k2) + 1 =
          (lc + countLines c + 4) + cellStart rest k2 + 1 := by omega
      have heq2 : lc + (countLines c + 4 + cellStart rest k2) =
          (lc + countLines c + 4) + cellStart rest k2 := by omega
      have heq3 : i + (k2 + 1) = (i + 1) + k2 := by omega
      rw [heq1, heq2, heq3]
      exact ih k2 hk2 (i + 1) (lc + countLines c + 4)

theorem foldl_flag {α : Type} (p : α → Prop) [DecidablePred p] :
    ∀ (l : List α) (b : Bool),
      l.foldl (fun c x => if p x then true else c) b =
        (b || l.any (fun x => decide (p x))) := by
  intro l
  induction l with
  | nil => intro b; simp
  | cons x xs ih =>
    intro b
    rw [List.foldl_cons, ih, List.any_cons]
    by_cases h : p x
    · simp [h]
    · simp [h]

theorem readLinesAux_flatten :
    ∀ (s acc : List Char), (readLinesAux acc s).flatten = acc.reverse ++ s := by
  intro s
  induction s with
  | nil => intro acc; by_cases h : acc = [] <;> simp [readLinesAux, h]
  | cons c rest ih =>
    intro acc
    by_cases hc : c = '\n'
    · subst hc
      simp [readLinesAux, ih]
    · simp [readLinesAux, hc, ih]

theorem snd_mem_of_enum_mem {α : Type} {l : List α} {p : ℕ × α} (h : p ∈ l.enum) :
    p.2 ∈ l :=
  List.getElem?_mem (List.mem_enum_iff_getElem?.mp h)

theorem format_code_get :
    ∀ (cells : List (ℕ × List Char)) (results : List (ℤ × List Char)) (k idx : ℕ)
      (code : List Char) (rc : ℤ) (out : List Char),
      cells[k]? = some (idx, code) → results[k]? = some (rc, out) → rc ≠ 0 →
      (format_code cells results)[k]? = some code := by
  intro cells
  induction cells with
  | nil => intro results k idx code rc out h1; simp at h1
  | cons c cs ih =>
    intro results k idx code rc out h1 h2 h3
    rcases results with _ | ⟨r, rs⟩
    · simp at h2
    · cases k with
      | zero =>
        simp only [List.getElem?_cons_zero, Option.some.injEq] at h1 h2
        subst h1; subst h2
        simp [format_code, h3]
      | succ k2 =>
        simp only [List.getElem?_cons_succ] at h1 h2
        have := ih rs k2 idx code rc out h1 h2 h3
        simpa [format_code] using this

theorem enum_filter_not_contains_nil (l : List (List Char)) :
    l.enum.filter (fun p => ¬ l.contains p.2) = [] := by
  apply List.filter_eq_nil_iff.mpr
  intro p hp
  have hm : p.2 ∈ l := snd_mem_of_enum_mem hp
  simp only [decide_eq_true_eq, Decidable.not_not]
  exact List.contains_iff_exists_mem_beq.mpr ⟨p.2, hm, by simp⟩

/-! ### Claims -/

/-- C1: the claim states that in `--check` mode a notebook with a
misformatted cell yields a "needs change" verdict and exit status 1
with no file write.  The code contradicts this: the `continue` in the
check branch of `process_notebook` (`format_ts_cells.py` line 59) is
taken before `changed = True` is reached, so the verdict is `False`,
`main` exits 0, and no write occurs.  This theorem evaluates the
embedded code at the failing input (one cell `"a"` whose formatted text
is `"b"`). -/
theorem claim_C1_check_mode_bug :
    (['b'] : List Char) ≠ ['a']
  ∧ format_process_notebook [['a']] [['b']] true = (false, false)
  ∧ main_exit [PathSpec.notebookFile
      (format_process_notebook [['a']] [['b']] true).1] = 0 := by
  refine ⟨by decide, by decide, by decide⟩

/-- C2: the start value `find_cell_from_global_line` returns for cell
`k` equals the sum of `(line count + 4)` over the cells before `k`, and
the global line `cellStart + 1` (the first content line of cell `k` in
the function's own coordinates) remaps to cell index `k` with row
`global_line - start = 1`. -/
theorem claim_C2_offset_remap (codes : List (List Char)) (k : ℕ) (hk : k < codes.length) :
    find_cell_from_global_line codes ((cellStart codes k + 1 : ℕ) : ℤ) =
      (((k : ℕ) : ℤ), ((cellStart codes k : ℕ) : ℤ))
  ∧ ((cellStart codes k + 1 : ℕ) : ℤ) -
      (find_cell_from_global_line codes ((cellStart codes k + 1 : ℕ) : ℤ)).2 = 1 := by
  have h := findCellAux_start codes k hk 0 0
  simp only [Nat.zero_add] at h
  refine ⟨by simpa only [find_cell_from_global_line] using h, ?_⟩
  have h2 : (find_cell_from_global_line codes ((cellStart codes k + 1 : ℕ) : ℤ)).2 =
      ((cellStart codes k : ℕ) : ℤ) := by
    simp only [find_cell_from_global_line, h]
  rw [h2]
  omega

/-- Witness for C2 at the single-cell input `["a"]`, `k = 0`. -/
theorem claim_C2_offset_remap_witness :
    find_cell_from_global_line [['a']] ((cellStart [['a']] 0 + 1 : ℕ) : ℤ) =
      (((0 : ℕ) : ℤ), ((cellStart [['a']] 0 : ℕ) : ℤ))
  ∧ ((cellStart [['a']] 0 + 1 : ℕ) : ℤ) -
      (find_cell_from_global_line [['a']] ((cellStart [['a']] 0 + 1 : ℕ) : ℤ)).2 = 1 :=
  claim_C2_offset_remap [['a']] 0 (by decide)

/-- C3: on three cells of 2, 1 and 3 lines, the start values returned
by `find_cell_from_global_line` are 0, 6 and 11 (the offset table
`{0 : 0, 1 : 6, 2 : 11}`), and global line 8 resolves to cell index 1
with remapped row `8 - 6 = 2`. -/
theorem claim_C3_scenario :
    find_cell_from_global_line [['a', '\n', 'b'], ['c'], ['d', '\n', 'e', '\n', 'f']] 1 = (0, 0)
  ∧ find_cell_from_global_line [['a', '\n', 'b'], ['c'], ['d', '\n', 'e', '\n', 'f']] 7 = (1, 6)
  ∧ find_cell_from_global_line [['a', '\n', 'b'], ['c'], ['d', '\n', 'e', '\n', 'f']] 12 = (2, 11)
  ∧ find_cell_from_global_line [['a', '\n', 'b'], ['c'], ['d', '\n', 'e', '\n', 'f']] 8 = (1, 6)
  ∧ (8 : ℤ) -
      (find_cell_from_global_line [['a', '\n', 'b'], ['c'], ['d', '\n', 'e', '\n', 'f']] 8).2 = 2 := by
  refine ⟨by decide, by decide, by decide, by decide, by decide⟩

/-- C4 (amended): for a parsed diagnostic whose global line falls at or
after the end of the last cell's span, `find_cell_from_global_line`
does return the sentinel `(-1, -1)`, but the consuming loop of
`lint_cells` does not drop the diagnostic: the joined document has
fewer than `spanTotal` lines, so `code_lines[parsed_line.line - 1]`
(`lint_ts_cells.py` line 72) is an out-of-range index and the loop
raises an uncaught `IndexError` instead of skipping the entry. -/
theorem claim_C4_sentinel_crash (codes : List (List Char)) (gl col : ℕ)
    (msg rid : List Char) (hne : codes ≠ []) (hgl : spanTotal codes ≤ gl) :
    find_cell_from_global_line codes (gl : ℤ) = (-1, -1)
  ∧ reportDiagnostic codes ⟨gl, col, msg, rid⟩ = LintLineOutcome.indexError := by
  constructor
  · apply findCellAux_sentinel
    have : ((spanTotal codes : ℕ) : ℤ) ≤ (gl : ℤ) := by exact_mod_cast hgl
    simpa [spanTotal] using this
  · have hlen := pySplitlines_intercalate_lt_spanTotal codes hne
    have hnone : (pySplitlines (List.intercalate SEP codes))[gl - 1]? = none := by
      apply List.getElem?_eq_none
      omega
    simp only [reportDiagnostic, hnone]

/-- Witness for C4 at `codes = ["a"]` (span 5) and global line 6. -/
theorem claim_C4_sentinel_crash_witness :
    find_cell_from_global_line [['a']] ((6 : ℕ) : ℤ) = (-1, -1)
  ∧ reportDiagnostic [['a']] ⟨6, 1, [], []⟩ = LintLineOutcome.indexError :=
  claim_C4_sentinel_crash [['a']] 6 1 [] [] (by decide) (by decide)

/-- Counterexample for C4 as stated: at `codes = ["a"]` and a parsed
diagnostic at global line 7 (after the last cell's span), the lint loop
does not drop the diagnostic without an out-of-range index: the body
hits an out-of-range access into the joined document's line list, an
uncaught `IndexError`. -/
theorem claim_C4_counterexample :
    find_cell_from_global_line [['a']] 7 = (-1, -1)
  ∧ reportDiagnostic [['a']] ⟨7, 1, [], []⟩ = LintLineOutcome.indexError
  ∧ LintLineOutcome.indexError ≠
      LintLineOutcome.passthrough (pyStrip ['7', ':', '1']) := by
  refine ⟨by decide, by decide, by decide⟩

/-- C6 (amended): the exit status of `main` is 1 exactly when some path
argument is missing or some processed notebook reported a change; an
existing path that is neither an `.ipynb` file nor a directory makes
`process_path` print `Invalid path` and return `False`, so it does not
force exit status 1; and for the lint script a notebook counts as
changed when some cell's fixed text differs from the original or the
tool exited non-zero. -/
theorem claim_C6_exit_codes :
    (∀ paths : List PathSpec,
      (main_exit paths = 1 ↔
        (∃ p, p ∈ paths ∧ isMissing p = true) ∨ (∃ p, p ∈ paths ∧ process_path p = true)))
  ∧ process_path PathSpec.other = false
  ∧ (∀ (pairs : List (List Char × List Char)) (rc : ℤ),
      lint_process_notebook pairs rc = true ↔
        ((∃ p, p ∈ pairs ∧ p.2 ≠ p.1) ∨ (pairs ≠ [] ∧ rc ≠ 0))) := by
  refine ⟨?_, rfl, ?_⟩
  · intro paths
    simp only [main_exit]
    split_ifs with h1 h2
    · simp only [List.any_eq_true] at h1
      simpa using Or.inl h1
    · simp only [List.any_eq_true, List.mem_map, id_eq] at h2
      obtain ⟨b, ⟨p, hp, hb⟩, hbt⟩ := h2
      subst hb
      simpa using Or.inr ⟨p, hp, hbt⟩
    · simp only [List.any_eq_true] at h1 h2
      constructor
      · intro h; exact absurd h (by norm_num)
      · rintro (⟨p, hp, hm⟩ | ⟨p, hp, hv⟩)
        · exact absurd ⟨p, hp, hm⟩ h1
        · exact absurd ⟨id (process_path p), List.mem_map_of_mem process_path hp, hv⟩ h2
  · intro pairs rc
    rw [lint_process_notebook, foldl_flag (fun pr => pr.2 ≠ pr.1 ∨ rc ≠ 0) pairs false]
    simp only [Bool.false_or, List.any_eq_true, decide_eq_true_eq]
    constructor
    · rintro ⟨p, hp, hne | hrc⟩
      · exact Or.inl ⟨p, hp, hne⟩
      · refine Or.inr ⟨?_, hrc⟩
        intro hnil
        rw [hnil] at hp
        simp at hp
    · rintro (⟨p, hp, hne⟩ | ⟨hnil, hrc⟩)
      · exact ⟨p, hp, Or.inl hne⟩
      · rcases pairs with _ | ⟨p, ps⟩
        · exact (hnil rfl).elim
        · exact ⟨p, by simp, Or.inr hrc⟩

/-- Counterexample for C6 as stated: a path that exists but is neither
a notebook file nor a directory does not force exit status 1 — the run
exits 0. -/
theorem claim_C6_counterexample :
    process_path PathSpec.other = false ∧ main_exit [PathSpec.other] = 0 := by
  refine ⟨by decide, by decide⟩

/-- C8: `execute` yields exactly the lines of the child's stdout stream
in order (their concatenation is the stream), and after the stream is
exhausted it raises `CalledProcessError` carrying the exit code if and
only if the exit code is non-zero, returning normally on zero. -/
theorem claim_C8_execute_stream :
    ∀ (stream : List Char) (rc : ℤ),
      (execute stream rc).1.flatten = stream
    ∧ ((execute stream rc).2 = some rc ↔ rc ≠ 0)
    ∧ ((execute stream rc).2 = none ↔ rc = 0) := by
  intro s rc
  refine ⟨?_, ?_, ?_⟩
  · simpa using readLinesAux_flatten s []
  · by_cases h : rc = 0 <;> simp [execute, h]
  · by_cases h : rc = 0 <;> simp [execute, h]

/-- C9: `format_code` returns one entry per input cell in input order
(`zip` against one formatter result per cell), and whenever the
formatter exited non-zero for a cell, that cell's entry is the cell's
original source unchanged. -/
theorem claim_C9_format_fallback (cells : List (ℕ × List Char))
    (results : List (ℤ × List Char)) (hlen : results.length = cells.length) :
    (format_code cells results).length = cells.length
  ∧ ∀ (k idx : ℕ) (code : List Char) (rc : ℤ) (out : List Char),
      cells[k]? = some (idx, code) → results[k]? = some (rc, out) → rc ≠ 0 →
      (format_code cells results)[k]? = some code := by
  constructor
  · simp [format_code, List.length_zip, hlen]
  · intro k idx code rc out h1 h2 h3
    exact format_code_get cells results k idx code rc out h1 h2 h3

/-- Witness for C9: one cell whose formatter run fails keeps its text. -/
theorem claim_C9_format_fallback_witness :
    (format_code [(0, ['a'])] [(1, ['b'])])[0]? = some ['a'] :=
  (claim_C9_format_fallback [(0, ['a'])] [(1, ['b'])] rfl).2 0 0 ['a'] 1 ['b'] rfl rfl
    (by decide)

/-- C10: `diff_strings` compares every line of `a` against the line
list of `b` and vice versa; on identical inputs both passes find every
line present, so only the separating newline remains and `strip()`
returns the empty string. -/
theorem claim_C10_diff_self : ∀ a : List Char, diff_strings a a = [] := by
  intro a
  simp only [diff_strings, enum_filter_not_contains_nil, List.map_nil, List.nil_append,
    List.append_nil, List.flatten]
  decide

/-- C5 (amended): a tool output line that does not match the diagnostic
grammar parses to line 0 and column 0 in both scripts; the lint loop
surfaces it as passthrough output stripped of surrounding whitespace
(`print(line.strip())`, `lint_ts_cells.py` line 74), while the compile
loop (`compile_ts_cells.py` lines 64-74) has no `else` branch and drops
such lines silently. -/
theorem claim_C5_passthrough (codes : List (List Char)) (lineText : List Char)
    (h1 : lintMatch lineText = none)
    (h2 : compileMatch (pyStrip lineText) = none) :
    parse_lint_output lineText = ⟨0, 0, [], []⟩
  ∧ parse_compile_output (pyStrip lineText) = ⟨0, 0, [], []⟩
  ∧ handleLintLine codes lineText = LintLineOutcome.passthrough (pyStrip lineText)
  ∧ handleCompileLine codes lineText = CompileLineOutcome.dropped := by
  have hp1 : parse_lint_output lineText = ⟨0, 0, [], []⟩ := by
    simp only [parse_lint_output, h1]
  have hp2 : parse_compile_output (pyStrip lineText) = ⟨0, 0, [], []⟩ := by
    simp only [parse_compile_output, h2]
  refine ⟨hp1, hp2, ?_, ?_⟩
  · simp [handleLintLine, hp1]
  · simp [handleCompileLine, hp2]

/-- Witness for C5 at the non-matching line `"hi"`. -/
theorem claim_C5_passthrough_witness :
    parse_lint_output ['h', 'i'] = ⟨0, 0, [], []⟩
  ∧ parse_compile_output (pyStrip ['h', 'i']) = ⟨0, 0, [], []⟩
  ∧ handleLintLine [['x']] ['h', 'i'] = LintLineOutcome.passthrough (pyStrip ['h', 'i'])
  ∧ handleCompileLine [['x']] ['h', 'i'] = CompileLineOutcome.dropped :=
  claim_C5_passthrough [['x']] ['h', 'i'] (by decide) (by decide)

/-- Counterexample for C5 as stated: the non-matching line `" hi\n"` is
silently dropped by the compile loop rather than surfaced, and the lint
loop prints it stripped of whitespace, not verbatim. -/
theorem claim_C5_counterexample :
    lintMatch [' ', 'h', 'i', '\n'] = none
  ∧ compileMatch (pyStrip [' ', 'h', 'i', '\n']) = none
  ∧ handleCompileLine [['x']] [' ', 'h', 'i', '\n'] = CompileLineOutcome.dropped
  ∧ handleLintLine [['x']] [' ', 'h', 'i', '\n'] = LintLineOutcome.passthrough ['h', 'i']
  ∧ (['h', 'i'] : List Char) ≠ [' ', 'h', 'i', '\n'] := by
  refine ⟨by decide, by decide, by decide, by decide, by decide⟩

/-! ### Occurrence lemmas for the separator -/

theorem newline_not_mem_MARKER : ¬ '\n' ∈ MARKER := by decide

theorem marker_occ_of_sep_occ {s : List Char} {p : ℕ} (h : SEP <+: s.drop p) :
    MARKER <+: s.drop (p + 2) := by
  obtain ⟨t, ht⟩ := h
  refine ⟨['\n', '\n'] ++ t, ?_⟩
  have h2 : s.drop (p + 2) = (s.drop p).drop 2 := by
    rw [List.drop_drop]
  rw [h2, ← ht]
  simp [SEP, List.append_assoc]

theorem infix_of_occ {pat s : List Char} {p : ℕ} (h : pat <+: s.drop p) :
    pat <:+: s := by
  obtain ⟨t, ht⟩ := h
  exact ⟨s.take p, t, by rw [List.append_assoc, ht, List.take_append_drop]⟩

theorem getElem?_of_occ {pat s : List Char} {q : ℕ} (h : pat <+: s.drop q)
    (j : ℕ) (hj : j < pat.length) : s[q + j]? = some pat[j] := by
  obtain ⟨t, ht⟩ := h
  rw [← List.getElem?_drop, ← ht, List.getElem?_append, if_pos hj]
  exact List.getElem?_eq_getElem hj

theorem prefix_of_append_of_le {pat x y : List Char} (h : pat <+: x ++ y)
    (hle : pat.length ≤ x.length) : pat <+: x := by
  obtain ⟨u, hu⟩ := h
  have h1 : pat = (x ++ y).take pat.length := by
    rw [← hu, List.take_left]
  rw [List.take_append_of_le_length hle] at h1
  rw [h1]
  exact List.take_prefix _ x

theorem no_sep_occ_before (a t : List Char) (ha : ¬ MARKER <:+: a) :
    ∀ p, p < a.length → ¬ SEP <+: (a ++ (SEP ++ t)).drop p := by
  intro p hp hocc
  have hm : MARKER <+: (a ++ (SEP ++ t)).drop (p + 2) := marker_occ_of_sep_occ hocc
  by_cases hcase : p + 2 + MARKER.length ≤ a.length
  · apply ha
    have hdrop : (a ++ (SEP ++ t)).drop (p + 2) = a.drop (p + 2) ++ (SEP ++ t) :=
      List.drop_append_of_le_length (by omega)
    rw [hdrop] at hm
    have hlen : MARKER.length ≤ (a.drop (p + 2)).length := by
      rw [List.length_drop]
      omega
    exact infix_of_occ (prefix_of_append_of_le hm hlen)
  · push_neg at hcase
    by_cases hq : p + 2 ≤ a.length
    · have hj : a.length - (p + 2) < MARKER.length := by omega
      have h1 := getElem?_of_occ hm (a.length - (p + 2)) hj
      have h2 : (p + 2) + (a.length - (p + 2)) = a.length := by omega
      rw [h2] at h1
      have h3 : (a ++ (SEP ++ t))[a.length]? = some '\n' := by
        rw [List.getElem?_append_right (le_refl _), Nat.sub_self]
        rfl
      rw [h1] at h3
      have h4 : MARKER[a.length - (p + 2)] = '\n' := Option.some.inj h3
      exact newline_not_mem_MARKER (h4 ▸ List.getElem_mem hj)
    · have hq2 : p + 2 = a.length + 1 := by omega
      have h1 := getElem?_of_occ hm 0 (show 0 < MARKER.length by decide)
      rw [Nat.add_zero, hq2] at h1
      have h3 : (a ++ (SEP ++ t))[a.length + 1]? = some '\n' := by
        rw [List.getElem?_append_right (by omega)]
        have h5 : a.length + 1 - a.length = 1 := by omega
        rw [h5]
        rfl
      rw [h1] at h3
      have h4 : MARKER[0] = '\n' := Option.some.inj h3
      exact absurd h4 (by decide)

theorem sep_occ_at (a t : List Char) : SEP <+: (a ++ (SEP ++ t)).drop a.length := by
  have h1 : (a ++ (SEP ++ t)).drop a.length = SEP ++ t := List.drop_left a (SEP ++ t)
  rw [h1]
  exact ⟨t, rfl⟩

theorem firstOcc_eq_some_of (pat : List Char) :
    ∀ (s : List Char) (p : ℕ), pat <+: s.drop p → (∀ q, q < p → ¬ pat <+: s.drop q) →
      firstOcc pat s = some p := by
  intro s
  induction s with
  | nil =>
    intro p hocc hmin
    have hpat : pat = [] := List.prefix_nil.mp (by simpa using hocc)
    rcases Nat.eq_zero_or_pos p with h0 | hpos
    · subst h0
      simp [firstOcc, hpat]
    · exact absurd (show pat <+: (([] : List Char).drop 0) by simp [hpat]) (hmin 0 hpos)
  | cons c rest ih =>
    intro p hocc hmin
    cases p with
    | zero =>
      simp only [firstOcc]
      rw [if_pos (by simpa using hocc)]
    | succ p2 =>
      have h0 : ¬ pat <+: (c :: rest) := by simpa using hmin 0 (Nat.succ_pos p2)
      simp only [firstOcc, if_neg h0]
      rw [ih p2 (by simpa using hocc) (fun q hq => by simpa using hmin (q + 1) (by omega))]
      rfl

theorem firstOcc_none_of (pat : List Char) :
    ∀ s : List Char, (∀ q, ¬ pat <+: s.drop q) → firstOcc pat s = none := by
  intro s
  induction s with
  | nil =>
    intro h
    simp only [firstOcc]
    rw [if_neg (by simpa using h 0)]
  | cons c rest ih =>
    intro h
    simp only [firstOcc, if_neg (show ¬ pat <+: c :: rest by simpa using h 0)]
    rw [ih (fun q => by simpa using h (q + 1))]
    rfl

theorem splitGo_intercalate :
    ∀ (codes : List (List Char)) (fuel : ℕ), codes ≠ [] →
      (∀ c, c ∈ codes → ¬ MARKER <:+: c) →
      (List.intercalate SEP codes).length < fuel →
      splitGo SEP fuel (List.intercalate SEP codes) = codes := by
  intro codes
  induction codes with
  | nil => intro fuel h; exact (h rfl).elim
  | cons a rest ih =>
    intro fuel _ hmem hfuel
    rcases rest with _ | ⟨b, l⟩
    · rw [intercalate_singleton] at hfuel ⊢
      have hnone : firstOcc SEP a = none := by
        apply firstOcc_none_of
        intro q hq
        exact hmem a (by simp) (infix_of_occ (marker_occ_of_sep_occ hq))
      obtain ⟨f, rfl⟩ : ∃ f, fuel = f + 1 := ⟨fuel - 1, by omega⟩
      simp only [splitGo, hnone]
    · rw [intercalate_cons_cons] at hfuel ⊢
      have hocc := sep_occ_at a (List.intercalate SEP (b :: l))
      have hmin : ∀ q, q < a.length →
          ¬ SEP <+: (a ++ (SEP ++ List.intercalate SEP (b :: l))).drop q :=
        no_sep_occ_before a (List.intercalate SEP (b :: l)) (hmem a (by simp))
      have hfirst : firstOcc SEP (a ++ (SEP ++ List.intercalate SEP (b :: l))) =
          some a.length := firstOcc_eq_some_of SEP _ a.length hocc hmin
      obtain ⟨f, rfl⟩ : ∃ f, fuel = f + 1 := ⟨fuel - 1, by omega⟩
      simp only [splitGo, hfirst]
      rw [List.take_left]
      congr 1
      have hdrop : (a ++ (SEP ++ List.intercalate SEP (b :: l))).drop (a.length + SEP.length) =
          List.intercalate SEP (b :: l) := by
        rw [← List.append_assoc]
        have h6 : a.length + SEP.length = (a ++ SEP).length := (List.length_append a SEP).symm
        rw [h6, List.drop_left]
      rw [hdrop]
      apply ih f (by simp) (fun c hc => hmem c (by simp [hc]))
      have h7 : SEP.length = 25 := by decide
      simp only [List.length_append, h7] at hfuel
      omega

/-- C7 (amended): for every non-empty sequence of per-cell sources none
of which contains the marker line `// --- CELL SPLIT ---` as a
substring, splitting the separator-join on the separator reproduces
exactly the original segments.  (The claim's weaker hypothesis — not
containing the full separator — is insufficient: a cell may end with a
fragment that combines with the following separator into a spurious
earlier occurrence; see the counterexample.) -/
theorem claim_C7_roundtrip (codes : List (List Char)) (hne : codes ≠ [])
    (hm : ∀ c, c ∈ codes → ¬ MARKER <:+: c) :
    pySplit SEP (List.intercalate SEP codes) = codes :=
  splitGo_intercalate codes ((List.intercalate SEP codes).length + 1) hne hm
    (Nat.lt_succ_self _)

/-- Witness for C7 at the two cells `"a"` and `"b"`. -/
theorem claim_C7_roundtrip_witness :
    pySplit SEP (List.intercalate SEP [['a'], ['b']]) = [['a'], ['b']] :=
  claim_C7_roundtrip [['a'], ['b']] (by decide) (by decide)

/-- Counterexample for C7 as stated: neither cell of
`["\n\n// --- CELL SPLIT ---", ""]` contains the separator string, yet
splitting the joined document does not reproduce the two cells (a
spurious separator occurrence starts at offset 0). -/
theorem claim_C7_counterexample :
    (¬ SEP <:+: ('\n' :: '\n' :: MARKER))
  ∧ (¬ SEP <:+: ([] : List Char))
  ∧ pySplit SEP (List.intercalate SEP [('\n' :: '\n' :: MARKER), []]) ≠
      [('\n' :: '\n' :: MARKER), []] := by
  refine ⟨by decide, by decide, by decide⟩
